import Mathlib

/-!
Verification development for the TCL-API-mirror real-time distribution layer.

The embedding follows the TypeScript sources:
  * src/src/services/tclService.ts        (deduplicateAlerts, indexAlertsByLine,
                                           detectNewAlerts, fetchTrafficAlerts,
                                           updateCachedData, getCachedData)
  * src/src/services/trafficSocketService.ts
                                          (normalizeLines, removeSocketFromLine,
                                           clearSubscriptions, replaceSubscriptions,
                                           startHeartbeat)
The key-derivation module src/utils/trafficAlertKey.ts (getAlertKey, getLineKey)
is imported by both services but is not part of the available sources, so those
two functions are modelled from the specification (section 4.1 Key Derivation).

JavaScript `Map` objects are embedded as association lists (first-match lookup,
in-place replacement on set, matching the unique-key discipline of `Map`), and
JavaScript `Set` objects as duplicate-free lists that preserve insertion order.
-/

/-- A raw field value of a duck-typed upstream record: a string, a number, a
boolean, some other JSON value, or absent. -/
inductive FieldValue where
  | str (s : String)
  | num (n : Int)
  | boolean (b : Bool)
  | other
  | absent
deriving DecidableEq, Repr

/-- Whitespace trimming of a string from both ends (JS `String.prototype.trim`),
written structurally over the character list. -/
def trimString (s : String) : String :=
  ⟨((s.data.dropWhile Char.isWhitespace).reverse.dropWhile Char.isWhitespace).reverse⟩

/-- Modelled from the spec: field normalization of the missing key-derivation
module (src/utils/trafficAlertKey.ts). "Absent/empty-after-trim values
normalize to absent; numbers and booleans normalize to their canonical string
form; all other types normalize to absent." -/
def normalizeField : FieldValue → Option String
  | .str s => let t := trimString s; if t = "" then none else some t
  | .num n => some (toString n)
  | .boolean b => some (toString b)
  | .other => none
  | .absent => none

/-- A raw traffic alert record (models/trafficAlert.ts `TrafficAlertRaw`),
restricted to the fields the key derivation reads plus the volatile fields the
spec names (numeric sequence number `n`, validity timestamps `debut`/`fin`).
The upstream record is an open string-keyed map; a structure over the relevant
fields is the shallow embedding of it, and consequently "field order" does not
exist in the embedding (the spec's determinism-across-field-order clause is
captured by `getAlertKey` being a function of the field values alone). -/
structure TrafficAlertRaw where
  message : FieldValue
  titre : FieldValue
  ligne_cli : FieldValue
  ligne_com : FieldValue
  cause : FieldValue
  type : FieldValue
  mode : FieldValue
  n : FieldValue
  debut : FieldValue
  fin : FieldValue
deriving DecidableEq, Repr

/-- An all-absent record, used as a base for concrete examples. -/
def blankAlert : TrafficAlertRaw :=
  ⟨.absent, .absent, .absent, .absent, .absent, .absent, .absent, .absent, .absent, .absent⟩

/-- Modelled from the spec: `topicKey` of the missing key-derivation module
(src/utils/trafficAlertKey.ts `getLineKey`). "Tries an ordered list of alias
fields and returns the first normalized-present one; order is significant and
fixed (primary topic field first, progressively less specific aliases after)."
The primary topic field of the records in this repository is `ligne_cli`
(see the fake-alert constructor in tclService.ts); `ligne_com` stands for the
less specific alias. -/
def getLineKey (r : TrafficAlertRaw) : Option String :=
  match normalizeField r.ligne_cli with
  | some s => some s
  | none => normalizeField r.ligne_com

/-- Modelled from the spec: `dedupKey` of the missing key-derivation module
(src/utils/trafficAlertKey.ts `getAlertKey`). "Builds a canonical ordered tuple
of normalized `{message, title, topicKey, cause, category, mode}` and
serializes it deterministically (same key ordering every call)." Absent
normalized components serialize as the empty string. -/
def getAlertKey (r : TrafficAlertRaw) : String :=
  String.intercalate "|"
    [(normalizeField r.message).getD "",
     (normalizeField r.titre).getD "",
     (getLineKey r).getD "",
     (normalizeField r.cause).getD "",
     (normalizeField r.type).getD "",
     (normalizeField r.mode).getD ""]

/-- First-match lookup in an association list (JS `Map.get`). -/
def alGet {K V : Type} [DecidableEq K] : List (K × V) → K → Option V
  | [], _ => none
  | (k1, v1) :: rest, k => if k = k1 then some v1 else alGet rest k

/-- In-place replacement / append in an association list (JS `Map.set`). -/
def alSet {K V : Type} [DecidableEq K] : List (K × V) → K → V → List (K × V)
  | [], k, v => [(k, v)]
  | (k1, v1) :: rest, k, v =>
      if k = k1 then (k, v) :: rest else (k1, v1) :: alSet rest k v

/-- Removal of the entry of a key from an association list (JS `Map.delete`). -/
def alDelete {K V : Type} [DecidableEq K] : List (K × V) → K → List (K × V)
  | [], _ => []
  | (k1, v1) :: rest, k =>
      if k = k1 then rest else (k1, v1) :: alDelete rest k

/-- Insertion-order set-add on a duplicate-free list (JS `Set.add`). -/
def setAdd {A : Type} [DecidableEq A] (s : List A) (a : A) : List A :=
  if a ∈ s then s else s ++ [a]

/-- tclService.ts `deduplicateAlerts` loop, with the `seen` set threaded
explicitly: keeps the first occurrence of each `getAlertKey`. -/
def dedupGo (seen : List String) : List TrafficAlertRaw → List TrafficAlertRaw
  | [] => []
  | alert :: rest =>
      let key := getAlertKey alert
      if key ∈ seen then dedupGo seen rest
      else alert :: dedupGo (key :: seen) rest

/-- tclService.ts `deduplicateAlerts`: removes duplicate alerts, keeping first
occurrence order. -/
def deduplicateAlerts (alerts : List TrafficAlertRaw) : List TrafficAlertRaw :=
  dedupGo [] alerts

/-- The topic index: a map from line key to the set of alert keys seen in one
snapshot (tclService.ts `Map<string, Set<string>>`). -/
def TopicIndex : Type := List (String × List String)

/-- tclService.ts `indexAlertsByLine`: indexes alerts by line. Alerts without
a line key are skipped. -/
def indexAlertsByLine (alerts : List TrafficAlertRaw) : TopicIndex :=
  alerts.foldl
    (fun index alert =>
      match getLineKey alert with
      | none => index
      | some lineKey =>
          let alertKey := getAlertKey alert
          match alGet index lineKey with
          | some existing => alSet index lineKey (setAdd existing alertKey)
          | none => alSet index lineKey [alertKey])
    []

/-- tclService.ts `detectNewAlerts`: an alert is kept iff it has a line key and
its alert key is not in the previous index entry for that line. -/
def detectNewAlerts (alerts : List TrafficAlertRaw) (previousIndex : TopicIndex) :
    List TrafficAlertRaw :=
  match alerts with
  | [] => []
  | alert :: rest =>
      match getLineKey alert with
      | none => detectNewAlerts rest previousIndex
      | some lineKey =>
          let alertKey := getAlertKey alert
          match alGet previousIndex lineKey with
          | none => alert :: detectNewAlerts rest previousIndex
          | some previousKeys =>
              if alertKey ∈ previousKeys then detectNewAlerts rest previousIndex
              else alert :: detectNewAlerts rest previousIndex

/-- models/trafficAlert.ts `CachedTrafficData`. Timestamps are abstracted as
naturals. -/
structure CachedTrafficData where
  alerts : List TrafficAlertRaw
  lastUpdated : Option Nat
  count : Nat
deriving DecidableEq, Repr

/-- The initial cache state of tclService.ts. -/
def initialCache : CachedTrafficData := ⟨[], none, 0⟩

/-- tclService.ts `fetchTrafficAlerts`, as a function of the settled results of
the two upstream requests (`Promise.allSettled` of the main source and the
Junior Direct source). A rejected main result is rethrown (the outer catch
rewraps its message; the embedding keeps the error value). A rejected Junior
Direct result degrades to an empty contribution. The fake-alert injection path
(`TRAFFIC_FAKE_ALERT` unset) is the identity and is not modelled. -/
def fetchTrafficAlerts (mainResult juniorResult : Except String (List TrafficAlertRaw)) :
    Except String (List TrafficAlertRaw) :=
  match mainResult with
  | .error reason => .error reason
  | .ok mainAlerts =>
      let juniorAlerts := match juniorResult with
        | .ok v => v
        | .error _ => []
      .ok (deduplicateAlerts (mainAlerts ++ juniorAlerts))

/-- Result of one `updateCachedData` call: the cache state after the call, the
value returned / error thrown, and the alerts passed to the subscriber
notification. -/
structure UpdateResult where
  state : CachedTrafficData
  result : Except String CachedTrafficData
  notified : List TrafficAlertRaw
deriving Repr

/-- tclService.ts `updateCachedData`, as a state transformer over the module
cache, with the awaited fetch outcome passed in. On a fetch error the cache is
untouched and the error is rethrown; on success the cache is replaced and the
diff against the previous index is notified (only when a previous snapshot
existed). -/
def updateCachedData (st : CachedTrafficData)
    (fetchResult : Except String (List TrafficAlertRaw)) (now : Nat) : UpdateResult :=
  let hadPrevious := st.alerts.length > 0
  let previousIndex := indexAlertsByLine st.alerts
  match fetchResult with
  | .error e => ⟨st, .error e, []⟩
  | .ok alerts =>
      let st1 : CachedTrafficData := ⟨alerts, some now, alerts.length⟩
      let newAlerts := if hadPrevious then detectNewAlerts alerts previousIndex else []
      ⟨st1, .ok st1, newAlerts⟩

/-- tclService.ts `getCachedData`: if the cache is empty (no alerts or no
`lastUpdated`), awaits `updateCachedData` — whose error, if any, propagates to
the caller — then returns the cache. -/
def getCachedData (st : CachedTrafficData)
    (fetchResult : Except String (List TrafficAlertRaw)) (now : Nat) :
    CachedTrafficData × Except String CachedTrafficData :=
  if st.alerts.length = 0 ∨ st.lastUpdated = none then
    let u := updateCachedData st fetchResult now
    match u.result with
    | .error e => (u.state, .error e)
    | .ok _ => (u.state, .ok u.state)
  else (st, .ok st)

/-- trafficSocketService.ts `MAX_FAVORITES`. -/
def MAX_FAVORITES : Nat := 50

/-- An element of the raw `lines` array of a subscribe message: a string, a
number, or any other JSON value. -/
inductive SubItem where
  | str (s : String)
  | num (n : Int)
  | other
deriving DecidableEq, Repr

/-- The per-item normalization step of trafficSocketService.ts
`normalizeLines`: trim strings, stringify numbers, map everything else to the
empty string. -/
def normalizeItem : SubItem → String
  | .str s => trimString s
  | .num n => toString n
  | .other => ""

/-- The loop of trafficSocketService.ts `normalizeLines`. `normalized` is both
the output array and the `seen` set (the source adds to `seen` exactly when it
pushes to `normalized`, so the two always hold the same strings). The loop
breaks as soon as `MAX_FAVORITES` entries are retained. -/
def normalizeLoop : List SubItem → List String → List String
  | [], normalized => normalized
  | item :: rest, normalized =>
      let line := normalizeItem item
      if line = "" ∨ line ∈ normalized then normalizeLoop rest normalized
      else
        let normalized1 := normalized ++ [line]
        if MAX_FAVORITES ≤ normalized1.length then normalized1
        else normalizeLoop rest normalized1

/-- Result of `normalizeLines`. -/
structure NormalizeResult where
  lines : List String
  truncated : Bool
deriving DecidableEq, Repr

/-- trafficSocketService.ts `normalizeLines` on an array input. The truncated
flag compares the retained count against the cap and the RAW input length
(`value.length`) against the cap. -/
def normalizeLines (value : List SubItem) : NormalizeResult :=
  let normalized := normalizeLoop value []
  { lines := normalized,
    truncated :=
      decide (MAX_FAVORITES ≤ normalized.length) && decide (MAX_FAVORITES < value.length) }

/-- The spec's reading of truncation (spec section 4.4): the distinct non-empty
normalized entries of the whole input, with no cap applied. The spec's
truncated flag would be `MAX_FAVORITES < (specDistinctTopics value).length`.
Declared for comparison with `normalizeLines`; not part of the source. -/
def specDistinctTopics (value : List SubItem) : List String :=
  value.foldl
    (fun acc item =>
      let line := normalizeItem item
      if line = "" ∨ line ∈ acc then acc else acc ++ [line])
    []

/-- The state of the two subscription maps of trafficSocketService.ts.
Connections (`WebSocket` object identities) are embedded as naturals. -/
structure RouterState where
  socketSubscriptions : List (Nat × List String)
  socketsByLine : List (String × List Nat)
deriving DecidableEq, Repr

/-- The empty router state (module initialization of trafficSocketService.ts). -/
def emptyRouter : RouterState := ⟨[], []⟩

/-- The subscription set of a connection (empty when absent). -/
def subsOf (st : RouterState) (ws : Nat) : List String :=
  (alGet st.socketSubscriptions ws).getD []

/-- The subscriber bucket of a line (empty when absent). -/
def bucketOf (st : RouterState) (line : String) : List Nat :=
  (alGet st.socketsByLine line).getD []

/-- trafficSocketService.ts `removeSocketFromLine`: deletes the connection from
the line's bucket and prunes the bucket when it becomes empty. -/
def removeSocketFromLine (st : RouterState) (ws : Nat) (line : String) : RouterState :=
  match alGet st.socketsByLine line with
  | none => st
  | some sockets =>
      let sockets1 := sockets.erase ws
      if sockets1.length = 0 then
        { st with socketsByLine := alDelete st.socketsByLine line }
      else
        { st with socketsByLine := alSet st.socketsByLine line sockets1 }

/-- trafficSocketService.ts `clearSubscriptions`: removes the connection from
every line it is subscribed to, then drops its subscription entry. -/
def clearSubscriptions (st : RouterState) (ws : Nat) : RouterState :=
  match alGet st.socketSubscriptions ws with
  | none => st
  | some current =>
      let st1 := current.foldl (fun s line => removeSocketFromLine s ws line) st
      { st1 with socketSubscriptions := alDelete st1.socketSubscriptions ws }

/-- The loop body of trafficSocketService.ts `replaceSubscriptions`: adds the
connection to one line's bucket, creating the bucket if needed. -/
def addSocketToLine (st : RouterState) (ws : Nat) (line : String) : RouterState :=
  match alGet st.socketsByLine line with
  | some sockets => { st with socketsByLine := alSet st.socketsByLine line (setAdd sockets ws) }
  | none => { st with socketsByLine := alSet st.socketsByLine line [ws] }

/-- Helper for `listDedup`: first-occurrence deduplication with the set of
already-seen lines threaded explicitly. -/
def listDedupGo (seen : List String) : List String → List String
  | [] => []
  | line :: rest =>
      if line ∈ seen then listDedupGo seen rest
      else line :: listDedupGo (line :: seen) rest

/-- First-occurrence deduplication of a list of lines (`new Set(lines)` in
trafficSocketService.ts, which preserves insertion order). -/
def listDedup (lines : List String) : List String :=
  listDedupGo [] lines

/-- trafficSocketService.ts `replaceSubscriptions`: clears the previous
subscription, records the new set, and indexes the connection under each of
its lines. -/
def replaceSubscriptions (st : RouterState) (ws : Nat) (lines : List String) : RouterState :=
  let st1 := clearSubscriptions st ws
  let next := listDedup lines
  let st2 := { st1 with socketSubscriptions := alSet st1.socketSubscriptions ws next }
  next.foldl (fun s line => addSocketToLine s ws line) st2

/-- One live WebSocket client of trafficSocketService.ts, with its
`isAlive` liveness flag (type `AliveWebSocket`). -/
structure HBClient where
  id : Nat
  isAlive : Bool
deriving DecidableEq, Repr

/-- The full socket-server state relevant to the heartbeat protocol: the two
subscription maps, the set of live clients (`wss.clients`), the ids of
terminated connections, and the ids probed in the latest heartbeat tick. -/
structure HBState where
  router : RouterState
  clients : List HBClient
  terminated : List Nat
  pinged : List Nat
deriving DecidableEq, Repr

/-- The loop body of the heartbeat interval callback of
trafficSocketService.ts `startHeartbeat`, iterated over the client list: a
client whose `isAlive` flag is down is unsubscribed (`clearSubscriptions`) and
terminated; otherwise its flag is lowered and a liveness probe (`ping`) is
sent. -/
def tickGo : List HBClient → HBState → HBState
  | [], s => s
  | c :: rest, s =>
      if c.isAlive then
        tickGo rest
          { s with clients := s.clients ++ [⟨c.id, false⟩], pinged := s.pinged ++ [c.id] }
      else
        tickGo rest
          { s with router := clearSubscriptions s.router c.id,
                   terminated := s.terminated ++ [c.id] }

/-- One firing of the heartbeat interval of trafficSocketService.ts
`startHeartbeat`: processes every client; the probes of this tick start empty,
terminated connections accumulate. -/
def heartbeatTick (st : HBState) : HBState :=
  tickGo st.clients { st with clients := [], pinged := [] }

/-- The `pong` handler of trafficSocketService.ts: raises the client's
`isAlive` flag. -/
def pongReceived (st : HBState) (ws : Nat) : HBState :=
  { st with clients := st.clients.map (fun c => if c.id = ws then ⟨c.id, true⟩ else c) }

/-- Mutual consistency of the two subscription maps, together with the
structural facts that make them behave as JS `Map`/`Set` values: keys are
unique, buckets and subscription sets are duplicate-free, a connection sits in
a line's bucket exactly when the line is in its subscription set, and no empty
bucket is retained. -/
structure Consistent (st : RouterState) : Prop where
  keysNodupS : (st.socketSubscriptions.map Prod.fst).Nodup
  keysNodupB : (st.socketsByLine.map Prod.fst).Nodup
  subsNodup : ∀ p ∈ st.socketSubscriptions, p.2.Nodup
  bucketsNodup : ∀ p ∈ st.socketsByLine, p.2.Nodup
  mem_iff : ∀ ws line, ws ∈ bucketOf st line ↔ line ∈ subsOf st ws
  nonempty : ∀ p ∈ st.socketsByLine, p.2 ≠ []

/-- The operations that mutate the subscription maps: a subscribe message
(`replaceSubscriptions`), an unsubscribe on close/error
(`clearSubscriptions`), and a heartbeat eviction (which also runs
`clearSubscriptions`). -/
inductive RouterOp where
  | subscribe (ws : Nat) (lines : List String)
  | unsubscribe (ws : Nat)
  | evict (ws : Nat)
deriving DecidableEq, Repr

/-- Interpretation of one router operation. -/
def applyOp (st : RouterState) : RouterOp → RouterState
  | .subscribe ws lines => replaceSubscriptions st ws lines
  | .unsubscribe ws => clearSubscriptions st ws
  | .evict ws => clearSubscriptions st ws

/-- Router states reachable from the empty initial state by any sequence of
subscribe / unsubscribe / heartbeat-eviction operations. -/
inductive Reachable : RouterState → Prop where
  | init : Reachable emptyRouter
  | step (op : RouterOp) {st : RouterState} : Reachable st → Reachable (applyOp st op)

/-- Concrete record with line `A` and message `m1`, for the diff example. -/
def alertAk1 : TrafficAlertRaw := { blankAlert with message := .str "m1", ligne_cli := .str "A" }

/-- Concrete record with line `A` and message `m2`, for the diff example. -/
def alertAk2 : TrafficAlertRaw := { blankAlert with message := .str "m2", ligne_cli := .str "A" }

/-- A concrete record pair with identical semantic fields and different
volatile fields (`n`, `debut`, `fin`), for the dedup-key congruence example. -/
def alertSemA : TrafficAlertRaw :=
  { blankAlert with message := .str "m", titre := .str "t", ligne_cli := .str "A",
                    cause := .str "c", n := .num 1, debut := .str "2024-01-01" }

/-- Same semantic content as `alertSemA`, different volatile fields. -/
def alertSemB : TrafficAlertRaw :=
  { blankAlert with message := .str "m", titre := .str "t", ligne_cli := .str "A",
                    cause := .str "c", n := .num 2, debut := .str "2024-02-02",
                    fin := .str "2024-03-03" }

/-- 51 subscribe items of which exactly 50 normalize to distinct topics (the
leading empty string is dropped by normalization). -/
def exInput51 : List SubItem :=
  SubItem.str "" :: (List.range 50).map (fun i => SubItem.num i)

/-- 60 distinct subscribe topic strings. -/
def exInput60 : List SubItem := (List.range 60).map (fun i => SubItem.num i)

/-- 50 distinct subscribe topic strings. -/
def exInput50 : List SubItem := (List.range 50).map (fun i => SubItem.num i)

/-- The router state reached from empty by subscribing connection 0 to
`["A","B"]` and then to `["C"]`. -/
def exRouterAC : RouterState :=
  replaceSubscriptions (replaceSubscriptions emptyRouter 0 ["A", "B"]) 0 ["C"]

/-- A socket-server state with one connection, subscribed to line `A`, whose
liveness flag is up. -/
def exHBState : HBState :=
  { router := replaceSubscriptions emptyRouter 0 ["A"],
    clients := [⟨0, true⟩], terminated := [], pinged := [] }

set_option maxRecDepth 10000

/-! ## Association-list and set helper lemmas -/

theorem alGet_alSet_self {K V : Type} [DecidableEq K] (m : List (K × V)) (k : K) (v : V) :
    alGet (alSet m k v) k = some v := by
  induction m with
  | nil => simp [alSet, alGet]
  | cons p rest ih =>
      obtain ⟨k1, v1⟩ := p
      by_cases h : k = k1 <;> simp [alSet, alGet, h, ih]

theorem alGet_alSet_ne {K V : Type} [DecidableEq K] (m : List (K × V)) (k k1 : K) (v : V)
    (h : k1 ≠ k) : alGet (alSet m k v) k1 = alGet m k1 := by
  induction m with
  | nil => simp [alSet, alGet, h]
  | cons p rest ih =>
      obtain ⟨k2, v2⟩ := p
      by_cases h2 : k = k2
      · subst h2; simp [alSet, alGet, h]
      · by_cases h3 : k1 = k2 <;> simp [alSet, alGet, h2, h3, ih]

theorem alGet_eq_none_of_not_mem {K V : Type} [DecidableEq K] (m : List (K × V)) (k : K)
    (h : k ∉ m.map Prod.fst) : alGet m k = none := by
  induction m with
  | nil => rfl
  | cons p rest ih =>
      obtain ⟨k1, v1⟩ := p
      simp only [List.map_cons, List.mem_cons] at h
      push_neg at h
      simp [alGet, h.1, ih h.2]

theorem alGet_alDelete_self {K V : Type} [DecidableEq K] (m : List (K × V)) (k : K)
    (h : (m.map Prod.fst).Nodup) : alGet (alDelete m k) k = none := by
  induction m with
  | nil => rfl
  | cons p rest ih =>
      obtain ⟨k1, v1⟩ := p
      simp only [List.map_cons, List.nodup_cons] at h
      by_cases hk : k = k1
      · subst hk; simpa [alDelete] using alGet_eq_none_of_not_mem rest k h.1
      · simp [alDelete, alGet, hk, ih h.2]

theorem alGet_alDelete_ne {K V : Type} [DecidableEq K] (m : List (K × V)) (k k1 : K)
    (h : k1 ≠ k) : alGet (alDelete m k) k1 = alGet m k1 := by
  induction m with
  | nil => rfl
  | cons p rest ih =>
      obtain ⟨k2, v2⟩ := p
      by_cases h2 : k = k2
      · subst h2; simp [alDelete, alGet, h]
      · by_cases h3 : k1 = k2 <;> simp [alDelete, alGet, h2, h3, ih]

theorem mem_alSet {K V : Type} [DecidableEq K] (m : List (K × V)) (k : K) (v : V)
    (q : K × V) (h : q ∈ alSet m k v) : q = (k, v) ∨ q ∈ m := by
  induction m with
  | nil => simp only [alSet, List.mem_singleton] at h; simp [h]
  | cons p rest ih =>
      obtain ⟨k1, v1⟩ := p
      by_cases h1 : k = k1
      · subst h1
        rcases (by simpa [alSet] using h : q = (k, v) ∨ q ∈ rest) with h2 | h2
        · exact Or.inl h2
        · exact Or.inr (List.mem_cons_of_mem _ h2)
      · rcases (by simpa [alSet, h1] using h : q = (k1, v1) ∨ q ∈ alSet rest k v) with h2 | h2
        · exact Or.inr (by simp [h2])
        · rcases ih h2 with h3 | h3
          · exact Or.inl h3
          · exact Or.inr (List.mem_cons_of_mem _ h3)

theorem mem_alDelete {K V : Type} [DecidableEq K] (m : List (K × V)) (k : K)
    (q : K × V) (h : q ∈ alDelete m k) : q ∈ m := by
  induction m with
  | nil => simp [alDelete] at h
  | cons p rest ih =>
      obtain ⟨k1, v1⟩ := p
      by_cases h1 : k = k1
      · subst h1; exact List.mem_cons_of_mem _ (by simpa [alDelete] using h)
      · rcases (by simpa [alDelete, h1] using h : q = (k1, v1) ∨ q ∈ alDelete rest k) with h2 | h2
        · simp [h2]
        · exact List.mem_cons_of_mem _ (ih h2)

theorem keys_alSet_mem {K V : Type} [DecidableEq K] (m : List (K × V)) (k : K) (v : V)
    (x : K) (h : x ∈ (alSet m k v).map Prod.fst) : x = k ∨ x ∈ m.map Prod.fst := by
  simp only [List.mem_map] at h
  obtain ⟨q, hq, hx⟩ := h
  rcases mem_alSet m k v q hq with h1 | h1
  · left; rw [← hx, h1]
  · right; exact List.mem_map.mpr ⟨q, h1, hx⟩

theorem keys_alSet_nodup {K V : Type} [DecidableEq K] (m : List (K × V)) (k : K) (v : V)
    (h : (m.map Prod.fst).Nodup) : ((alSet m k v).map Prod.fst).Nodup := by
  induction m with
  | nil => simp [alSet]
  | cons p rest ih =>
      obtain ⟨k1, v1⟩ := p
      simp only [List.map_cons, List.nodup_cons] at h
      by_cases h1 : k = k1
      · subst h1
        have heq : alSet ((k, v1) :: rest) k v = (k, v) :: rest := by simp [alSet]
        rw [heq]
        simp only [List.map_cons, List.nodup_cons]
        exact ⟨h.1, h.2⟩
      · simp only [alSet, if_neg h1, List.map_cons, List.nodup_cons]
        refine ⟨fun hmem => ?_, ih h.2⟩
        rcases keys_alSet_mem rest k v k1 hmem with h2 | h2
        · exact h1 h2.symm
        · exact h.1 h2

theorem keys_alDelete_mem {K V : Type} [DecidableEq K] (m : List (K × V)) (k : K)
    (x : K) (h : x ∈ (alDelete m k).map Prod.fst) : x ∈ m.map Prod.fst := by
  simp only [List.mem_map] at h
  obtain ⟨q, hq, hx⟩ := h
  exact List.mem_map.mpr ⟨q, mem_alDelete m k q hq, hx⟩

theorem keys_alDelete_nodup {K V : Type} [DecidableEq K] (m : List (K × V)) (k : K)
    (h : (m.map Prod.fst).Nodup) : ((alDelete m k).map Prod.fst).Nodup := by
  induction m with
  | nil => simp [alDelete]
  | cons p rest ih =>
      obtain ⟨k1, v1⟩ := p
      simp only [List.map_cons, List.nodup_cons] at h
      by_cases h1 : k = k1
      · subst h1; simpa [alDelete] using h.2
      · simp only [alDelete, if_neg h1, List.map_cons, List.nodup_cons]
        exact ⟨fun hmem => h.1 (keys_alDelete_mem rest k k1 hmem), ih h.2⟩

theorem alGet_mem {K V : Type} [DecidableEq K] (m : List (K × V)) (k : K) (v : V)
    (h : alGet m k = some v) : (k, v) ∈ m := by
  induction m with
  | nil => simp [alGet] at h
  | cons p rest ih =>
      obtain ⟨k1, v1⟩ := p
      by_cases h1 : k = k1
      · subst h1
        have h2 : v1 = v := by simpa [alGet] using h
        simp [h2]
      · exact List.mem_cons_of_mem _ (ih (by simpa [alGet, h1] using h))

theorem mem_setAdd_self {A : Type} [DecidableEq A] (s : List A) (a : A) : a ∈ setAdd s a := by
  unfold setAdd; split <;> simp_all

theorem mem_setAdd_iff {A : Type} [DecidableEq A] (s : List A) (a b : A) (h : b ≠ a) :
    b ∈ setAdd s a ↔ b ∈ s := by
  unfold setAdd; split <;> simp_all

theorem setAdd_nodup {A : Type} [DecidableEq A] (s : List A) (a : A) (h : s.Nodup) :
    (setAdd s a).Nodup := by
  unfold setAdd; split
  · exact h
  · simpa [List.nodup_append] using ⟨h, by assumption⟩

theorem setAdd_ne_nil {A : Type} [DecidableEq A] (s : List A) (a : A) :
    setAdd s a ≠ [] := by
  unfold setAdd; split
  · intro hs; simp_all
  · simp

theorem alDelete_eq_self {K V : Type} [DecidableEq K] (m : List (K × V)) (k : K)
    (h : alGet m k = none) : alDelete m k = m := by
  induction m with
  | nil => rfl
  | cons p rest ih =>
      obtain ⟨k1, v1⟩ := p
      by_cases h1 : k = k1
      · subst h1; simp [alGet] at h
      · simp only [alGet, if_neg h1] at h
        simp [alDelete, h1, ih h]

theorem mem_listDedupGo (l seen : List String) (x : String) :
    x ∈ listDedupGo seen l ↔ x ∈ l ∧ x ∉ seen := by
  induction l generalizing seen with
  | nil => simp [listDedupGo]
  | cons a rest ih =>
      by_cases h : a ∈ seen
      · rw [listDedupGo, if_pos h, ih]
        constructor
        · rintro ⟨hx, hs⟩; exact ⟨List.mem_cons_of_mem _ hx, hs⟩
        · rintro ⟨hx, hs⟩
          rcases List.mem_cons.mp hx with rfl | hx
          · exact absurd h hs
          · exact ⟨hx, hs⟩
      · rw [listDedupGo, if_neg h]
        constructor
        · intro hx
          rcases List.mem_cons.mp hx with rfl | hx
          · exact ⟨List.mem_cons_self _ _, h⟩
          · obtain ⟨h1, h2⟩ := (ih _).mp hx
            exact ⟨List.mem_cons_of_mem _ h1, fun hs => h2 (List.mem_cons_of_mem _ hs)⟩
        · rintro ⟨hx, hs⟩
          rcases List.mem_cons.mp hx with rfl | hx
          · exact List.mem_cons_self _ _
          · by_cases hxa : x = a
            · subst hxa; exact List.mem_cons_self _ _
            · exact List.mem_cons_of_mem _
                ((ih _).mpr ⟨hx, by simp [hxa, hs]⟩)

theorem mem_listDedup (l : List String) (x : String) : x ∈ listDedup l ↔ x ∈ l := by
  simpa [listDedup] using mem_listDedupGo l [] x

theorem listDedupGo_nodup (l seen : List String) : (listDedupGo seen l).Nodup := by
  induction l generalizing seen with
  | nil => simp [listDedupGo]
  | cons a rest ih =>
      by_cases h : a ∈ seen
      · rw [listDedupGo, if_pos h]; exact ih seen
      · rw [listDedupGo, if_neg h]
        refine List.nodup_cons.mpr ⟨fun hmem => ?_, ih _⟩
        exact ((mem_listDedupGo _ _ _).mp hmem).2 (List.mem_cons_self _ _)

theorem listDedup_nodup (l : List String) : (listDedup l).Nodup :=
  listDedupGo_nodup l []

/-! ## Router-state helper lemmas -/

theorem consistent_empty : Consistent emptyRouter := by
  refine ⟨?_, ?_, ?_, ?_, ?_, ?_⟩ <;> simp [emptyRouter, bucketOf, subsOf, alGet]

theorem bucketOf_nodup (st : RouterState) (l : String)
    (h : ∀ p ∈ st.socketsByLine, p.2.Nodup) : (bucketOf st l).Nodup := by
  unfold bucketOf
  rcases hq : alGet st.socketsByLine l with _ | b
  · simp
  · simpa using h (l, b) (alGet_mem _ _ _ hq)

theorem subsOf_nodup (st : RouterState) (ws : Nat)
    (h : ∀ p ∈ st.socketSubscriptions, p.2.Nodup) : (subsOf st ws).Nodup := by
  unfold subsOf
  rcases hq : alGet st.socketSubscriptions ws with _ | b
  · simp
  · simpa using h (ws, b) (alGet_mem _ _ _ hq)

theorem rsfl_subs (st : RouterState) (ws : Nat) (line : String) :
    (removeSocketFromLine st ws line).socketSubscriptions = st.socketSubscriptions := by
  unfold removeSocketFromLine
  split
  · rfl
  · dsimp only
    split <;> rfl

theorem rsfl_bucket_self (st : RouterState) (ws : Nat) (line : String)
    (h1 : (st.socketsByLine.map Prod.fst).Nodup) :
    bucketOf (removeSocketFromLine st ws line) line = (bucketOf st line).erase ws := by
  unfold removeSocketFromLine
  split
  next hq => simp [bucketOf, hq]
  next sockets hq =>
      dsimp only
      split
      next hz =>
          simp [bucketOf, alGet_alDelete_self _ _ h1, hq, List.length_eq_zero.mp hz]
      next =>
          simp [bucketOf, alGet_alSet_self, hq]

theorem rsfl_bucket_ne (st : RouterState) (ws : Nat) (line l : String) (h : l ≠ line) :
    bucketOf (removeSocketFromLine st ws line) l = bucketOf st l := by
  unfold removeSocketFromLine
  split
  next => rfl
  next sockets hq =>
      dsimp only
      split
      next => simp [bucketOf, alGet_alDelete_ne _ _ _ h]
      next => simp [bucketOf, alGet_alSet_ne _ _ _ _ h]

theorem rsfl_lines_props (st : RouterState) (ws : Nat) (line : String)
    (h1 : (st.socketsByLine.map Prod.fst).Nodup)
    (h2 : ∀ p ∈ st.socketsByLine, p.2.Nodup)
    (h3 : ∀ p ∈ st.socketsByLine, p.2 ≠ []) :
    (((removeSocketFromLine st ws line).socketsByLine.map Prod.fst).Nodup) ∧
    (∀ p ∈ (removeSocketFromLine st ws line).socketsByLine, p.2.Nodup) ∧
    (∀ p ∈ (removeSocketFromLine st ws line).socketsByLine, p.2 ≠ []) := by
  unfold removeSocketFromLine
  split
  next => exact ⟨h1, h2, h3⟩
  next sockets hq =>
      dsimp only
      split
      next =>
          refine ⟨keys_alDelete_nodup _ _ h1, ?_, ?_⟩
          · intro p hp; exact h2 p (mem_alDelete _ _ p hp)
          · intro p hp; exact h3 p (mem_alDelete _ _ p hp)
      next hz =>
          refine ⟨keys_alSet_nodup _ _ _ h1, ?_, ?_⟩
          · intro p hp
            rcases mem_alSet _ _ _ p hp with rfl | hp2
            · exact (h2 (line, sockets) (alGet_mem _ _ _ hq)).erase _
            · exact h2 p hp2
          · intro p hp
            rcases mem_alSet _ _ _ p hp with rfl | hp2
            · intro hnil
              exact hz (by simpa using congrArg List.length hnil)
            · exact h3 p hp2

theorem foldRemove_subs (L : List String) (st : RouterState) (ws : Nat) :
    (L.foldl (fun s line => removeSocketFromLine s ws line) st).socketSubscriptions =
      st.socketSubscriptions := by
  induction L generalizing st with
  | nil => rfl
  | cons line rest ih =>
      rw [List.foldl_cons, ih (removeSocketFromLine st ws line), rsfl_subs]

theorem foldRemove_lines_props (L : List String) (st : RouterState) (ws : Nat)
    (h1 : (st.socketsByLine.map Prod.fst).Nodup)
    (h2 : ∀ p ∈ st.socketsByLine, p.2.Nodup)
    (h3 : ∀ p ∈ st.socketsByLine, p.2 ≠ []) :
    (((L.foldl (fun s line => removeSocketFromLine s ws line) st).socketsByLine.map
        Prod.fst).Nodup) ∧
    (∀ p ∈ (L.foldl (fun s line => removeSocketFromLine s ws line) st).socketsByLine,
        p.2.Nodup) ∧
    (∀ p ∈ (L.foldl (fun s line => removeSocketFromLine s ws line) st).socketsByLine,
        p.2 ≠ []) := by
  induction L generalizing st with
  | nil => exact ⟨h1, h2, h3⟩
  | cons line rest ih =>
      obtain ⟨p1, p2, p3⟩ := rsfl_lines_props st ws line h1 h2 h3
      rw [List.foldl_cons]
      exact ih (removeSocketFromLine st ws line) p1 p2 p3

theorem foldRemove_bucket (L : List String) (st : RouterState) (ws : Nat) (l : String)
    (hL : L.Nodup)
    (h1 : (st.socketsByLine.map Prod.fst).Nodup)
    (h2 : ∀ p ∈ st.socketsByLine, p.2.Nodup)
    (h3 : ∀ p ∈ st.socketsByLine, p.2 ≠ []) :
    bucketOf (L.foldl (fun s line => removeSocketFromLine s ws line) st) l =
      if l ∈ L then (bucketOf st l).erase ws else bucketOf st l := by
  induction L generalizing st with
  | nil => simp
  | cons line rest ih =>
      obtain ⟨p1, p2, p3⟩ := rsfl_lines_props st ws line h1 h2 h3
      rw [List.foldl_cons,
          ih (removeSocketFromLine st ws line) (List.nodup_cons.mp hL).2 p1 p2 p3]
      by_cases hl : l = line
      · subst hl
        have hnr : l ∉ rest := (List.nodup_cons.mp hL).1
        simp [hnr, rsfl_bucket_self st ws l h1]
      · rw [rsfl_bucket_ne st ws line l hl]
        by_cases hr : l ∈ rest <;> simp [hr, hl]

theorem clear_subs_eq (st : RouterState) (ws : Nat) :
    (clearSubscriptions st ws).socketSubscriptions =
      alDelete st.socketSubscriptions ws := by
  unfold clearSubscriptions
  split
  next hq => exact (alDelete_eq_self _ _ hq).symm
  next current hq =>
      show alDelete (List.foldl _ st current).socketSubscriptions ws = _
      rw [foldRemove_subs]

theorem clear_lines_eq (st : RouterState) (ws : Nat) :
    (clearSubscriptions st ws).socketsByLine =
      ((subsOf st ws).foldl (fun s line => removeSocketFromLine s ws line) st).socketsByLine := by
  unfold clearSubscriptions
  split
  next hq => simp [subsOf, hq]
  next current hq => simp [subsOf, hq]

theorem clear_lines_props (st : RouterState) (ws : Nat)
    (h1 : (st.socketsByLine.map Prod.fst).Nodup)
    (h2 : ∀ p ∈ st.socketsByLine, p.2.Nodup)
    (h3 : ∀ p ∈ st.socketsByLine, p.2 ≠ []) :
    (((clearSubscriptions st ws).socketsByLine.map Prod.fst).Nodup) ∧
    (∀ p ∈ (clearSubscriptions st ws).socketsByLine, p.2.Nodup) ∧
    (∀ p ∈ (clearSubscriptions st ws).socketsByLine, p.2 ≠ []) := by
  rw [clear_lines_eq]
  have := foldRemove_lines_props (subsOf st ws) st ws h1 h2 h3
  exact this

theorem clear_bucket (st : RouterState) (ws : Nat) (h : Consistent st) (l : String) :
    bucketOf (clearSubscriptions st ws) l = (bucketOf st l).erase ws := by
  have hbl : bucketOf (clearSubscriptions st ws) l =
      bucketOf ((subsOf st ws).foldl (fun s line => removeSocketFromLine s ws line) st) l := by
    unfold bucketOf
    rw [clear_lines_eq]
  rw [hbl, foldRemove_bucket _ _ _ _ (subsOf_nodup st ws h.subsNodup) h.keysNodupB
        h.bucketsNodup h.nonempty]
  by_cases hl : l ∈ subsOf st ws
  · simp [hl]
  · have hnm : ws ∉ bucketOf st l := fun hmem => hl ((h.mem_iff ws l).mp hmem)
    rw [if_neg hl]
    exact (List.erase_of_not_mem hnm).symm

theorem clear_subsOf_self (st : RouterState) (ws : Nat)
    (hS : (st.socketSubscriptions.map Prod.fst).Nodup) :
    subsOf (clearSubscriptions st ws) ws = [] := by
  unfold subsOf
  rw [clear_subs_eq, alGet_alDelete_self _ _ hS]
  rfl

theorem clear_subsOf_ne (st : RouterState) (ws w : Nat) (h : w ≠ ws) :
    subsOf (clearSubscriptions st ws) w = subsOf st w := by
  unfold subsOf
  rw [clear_subs_eq, alGet_alDelete_ne _ _ _ h]

theorem clear_consistent (st : RouterState) (ws : Nat) (h : Consistent st) :
    Consistent (clearSubscriptions st ws) := by
  obtain ⟨p1, p2, p3⟩ := clear_lines_props st ws h.keysNodupB h.bucketsNodup h.nonempty
  refine ⟨?_, p1, ?_, p2, ?_, p3⟩
  · rw [clear_subs_eq]
    exact keys_alDelete_nodup _ _ h.keysNodupS
  · intro p hp
    rw [clear_subs_eq] at hp
    exact h.subsNodup p (mem_alDelete _ _ p hp)
  · intro w l
    rw [clear_bucket st ws h l]
    by_cases hw : w = ws
    · subst hw
      rw [clear_subsOf_self st w h.keysNodupS]
      simp [(bucketOf_nodup st l h.bucketsNodup).not_mem_erase]
    · rw [clear_subsOf_ne st ws w hw, List.mem_erase_of_ne hw]
      exact h.mem_iff w l

theorem add_subs (st : RouterState) (ws : Nat) (line : String) :
    (addSocketToLine st ws line).socketSubscriptions = st.socketSubscriptions := by
  unfold addSocketToLine
  split <;> rfl

theorem add_bucket_self (st : RouterState) (ws : Nat) (line : String) :
    bucketOf (addSocketToLine st ws line) line = setAdd (bucketOf st line) ws := by
  unfold addSocketToLine
  split
  next sockets hq => simp [bucketOf, alGet_alSet_self, hq]
  next hq => simp [bucketOf, alGet_alSet_self, hq, setAdd]

theorem add_bucket_ne (st : RouterState) (ws : Nat) (line l : String) (h : l ≠ line) :
    bucketOf (addSocketToLine st ws line) l = bucketOf st l := by
  unfold addSocketToLine
  split <;> simp [bucketOf, alGet_alSet_ne _ _ _ _ h]

theorem add_lines_props (st : RouterState) (ws : Nat) (line : String)
    (h1 : (st.socketsByLine.map Prod.fst).Nodup)
    (h2 : ∀ p ∈ st.socketsByLine, p.2.Nodup)
    (h3 : ∀ p ∈ st.socketsByLine, p.2 ≠ []) :
    (((addSocketToLine st ws line).socketsByLine.map Prod.fst).Nodup) ∧
    (∀ p ∈ (addSocketToLine st ws line).socketsByLine, p.2.Nodup) ∧
    (∀ p ∈ (addSocketToLine st ws line).socketsByLine, p.2 ≠ []) := by
  unfold addSocketToLine
  split
  next sockets hq =>
      refine ⟨keys_alSet_nodup _ _ _ h1, ?_, ?_⟩
      · intro p hp
        rcases mem_alSet _ _ _ p hp with rfl | hp2
        · exact setAdd_nodup _ _ (h2 (line, sockets) (alGet_mem _ _ _ hq))
        · exact h2 p hp2
      · intro p hp
        rcases mem_alSet _ _ _ p hp with rfl | hp2
        · exact setAdd_ne_nil _ _
        · exact h3 p hp2
  next hq =>
      refine ⟨keys_alSet_nodup _ _ _ h1, ?_, ?_⟩
      · intro p hp
        rcases mem_alSet _ _ _ p hp with rfl | hp2
        · simp
        · exact h2 p hp2
      · intro p hp
        rcases mem_alSet _ _ _ p hp with rfl | hp2
        · simp
        · exact h3 p hp2

theorem foldAdd_subs (L : List String) (st : RouterState) (ws : Nat) :
    (L.foldl (fun s line => addSocketToLine s ws line) st).socketSubscriptions =
      st.socketSubscriptions := by
  induction L generalizing st with
  | nil => rfl
  | cons line rest ih =>
      rw [List.foldl_cons, ih (addSocketToLine st ws line), add_subs]

theorem foldAdd_lines_props (L : List String) (st : RouterState) (ws : Nat)
    (h1 : (st.socketsByLine.map Prod.fst).Nodup)
    (h2 : ∀ p ∈ st.socketsByLine, p.2.Nodup)
    (h3 : ∀ p ∈ st.socketsByLine, p.2 ≠ []) :
    (((L.foldl (fun s line => addSocketToLine s ws line) st).socketsByLine.map
        Prod.fst).Nodup) ∧
    (∀ p ∈ (L.foldl (fun s line => addSocketToLine s ws line) st).socketsByLine,
        p.2.Nodup) ∧
    (∀ p ∈ (L.foldl (fun s line => addSocketToLine s ws line) st).socketsByLine,
        p.2 ≠ []) := by
  induction L generalizing st with
  | nil => exact ⟨h1, h2, h3⟩
  | cons line rest ih =>
      obtain ⟨p1, p2, p3⟩ := add_lines_props st ws line h1 h2 h3
      rw [List.foldl_cons]
      exact ih (addSocketToLine st ws line) p1 p2 p3

theorem foldAdd_bucket (L : List String) (st : RouterState) (ws : Nat) (l : String)
    (hL : L.Nodup) :
    bucketOf (L.foldl (fun s line => addSocketToLine s ws line) st) l =
      if l ∈ L then setAdd (bucketOf st l) ws else bucketOf st l := by
  induction L generalizing st with
  | nil => simp
  | cons line rest ih =>
      rw [List.foldl_cons, ih (addSocketToLine st ws line) (List.nodup_cons.mp hL).2]
      by_cases hl : l = line
      · subst hl
        have hnr : l ∉ rest := (List.nodup_cons.mp hL).1
        simp [hnr, add_bucket_self st ws l]
      · rw [add_bucket_ne st ws line l hl]
        by_cases hr : l ∈ rest <;> simp [hr, hl]

theorem replace_subs_eq (st : RouterState) (ws : Nat) (lines : List String) :
    (replaceSubscriptions st ws lines).socketSubscriptions =
      alSet (clearSubscriptions st ws).socketSubscriptions ws (listDedup lines) := by
  unfold replaceSubscriptions
  rw [foldAdd_subs]

theorem replace_subsOf_self (st : RouterState) (ws : Nat) (lines : List String) :
    subsOf (replaceSubscriptions st ws lines) ws = listDedup lines := by
  unfold subsOf
  rw [replace_subs_eq, alGet_alSet_self]
  rfl

theorem replace_subsOf_ne (st : RouterState) (ws w : Nat) (lines : List String) (h : w ≠ ws) :
    subsOf (replaceSubscriptions st ws lines) w = subsOf st w := by
  unfold subsOf
  rw [replace_subs_eq, alGet_alSet_ne _ _ _ _ h, clear_subs_eq, alGet_alDelete_ne _ _ _ h]

theorem replace_bucket (st : RouterState) (ws : Nat) (lines : List String)
    (h : Consistent st) (l : String) :
    bucketOf (replaceSubscriptions st ws lines) l =
      if l ∈ listDedup lines then setAdd ((bucketOf st l).erase ws) ws
      else (bucketOf st l).erase ws := by
  unfold replaceSubscriptions
  have hmid : bucketOf
      { clearSubscriptions st ws with
          socketSubscriptions :=
            alSet (clearSubscriptions st ws).socketSubscriptions ws (listDedup lines) } l =
      bucketOf (clearSubscriptions st ws) l := rfl
  rw [foldAdd_bucket _ _ _ _ (listDedup_nodup lines), hmid, clear_bucket st ws h l]

theorem replace_consistent (st : RouterState) (ws : Nat) (lines : List String)
    (h : Consistent st) : Consistent (replaceSubscriptions st ws lines) := by
  have hc := clear_consistent st ws h
  obtain ⟨q1, q2, q3⟩ := clear_lines_props st ws h.keysNodupB h.bucketsNodup h.nonempty
  have hmid : ∀ P : List (String × List Nat) → Prop,
      P (replaceSubscriptions st ws lines).socketsByLine ↔
      P (((listDedup lines).foldl (fun s line => addSocketToLine s ws line)
        { clearSubscriptions st ws with
            socketSubscriptions :=
              alSet (clearSubscriptions st ws).socketSubscriptions ws
                (listDedup lines) }).socketsByLine) := fun P => Iff.rfl
  obtain ⟨p1, p2, p3⟩ := foldAdd_lines_props (listDedup lines)
      { clearSubscriptions st ws with
          socketSubscriptions :=
            alSet (clearSubscriptions st ws).socketSubscriptions ws (listDedup lines) }
      ws q1 q2 q3
  refine ⟨?_, p1, ?_, p2, ?_, p3⟩
  · rw [replace_subs_eq]
    exact keys_alSet_nodup _ _ _ hc.keysNodupS
  · intro p hp
    rw [replace_subs_eq] at hp
    rcases mem_alSet _ _ _ p hp with rfl | hp2
    · exact listDedup_nodup lines
    · exact hc.subsNodup p hp2
  · intro w l
    rw [replace_bucket st ws lines h l]
    by_cases hw : w = ws
    · subst hw
      rw [replace_subsOf_self]
      by_cases hl : l ∈ listDedup lines
      · simp [hl, mem_setAdd_self]
      · rw [if_neg hl]
        simp only [hl, iff_false]
        exact (bucketOf_nodup st l h.bucketsNodup).not_mem_erase
    · rw [replace_subsOf_ne st ws w lines hw]
      by_cases hl : l ∈ listDedup lines
      · rw [if_pos hl, mem_setAdd_iff _ _ _ hw, List.mem_erase_of_ne hw]
        exact h.mem_iff w l
      · rw [if_neg hl, List.mem_erase_of_ne hw]
        exact h.mem_iff w l

/-! ## Claim C6 — failed refresh leaves the cache untouched -/

/-- C6: for every refresh in which the fetch fails, `updateCachedData` leaves
the cached snapshot exactly as it was, surfaces the error to its caller, and
notifies nobody. -/
theorem updateCachedData_error_leaves_cache (st : CachedTrafficData) (e : String) (now : Nat) :
    updateCachedData st (Except.error e) now = ⟨st, Except.error e, []⟩ := rfl

/-! ## Claim C4 — getCachedData bootstrap behaviour -/

/-- C4 counterexample: a cache that HAS been populated (by a refresh that
returned zero alerts: `lastUpdated` is set) still triggers a refresh, and when
that refresh fails `getCachedData` propagates the error instead of returning
the cache contents. -/
theorem getCachedData_propagates_error :
    getCachedData ⟨[], some 5, 0⟩ (Except.error "down") 7 =
      (⟨[], some 5, 0⟩, Except.error "down") ∧
    (getCachedData ⟨[], some 5, 0⟩ (Except.error "down") 7).2 ≠
      Except.ok (⟨[], some 5, 0⟩ : CachedTrafficData) := by
  constructor
  · rfl
  · intro h
    simp [getCachedData, updateCachedData] at h

/-- C4 amended: `getCachedData` triggers a synchronous refresh whenever the
cached alert list is empty or `lastUpdated` is unset (so also on a
populated-but-empty cache, not only on a never-populated one); when that
refresh fails the error propagates to the caller, and otherwise the (possibly
just replaced) cache contents are returned. -/
theorem getCachedData_amended (st : CachedTrafficData) (now : Nat) (e : String)
    (alerts : List TrafficAlertRaw) :
    (getCachedData st (Except.error e) now =
       if st.alerts.length = 0 ∨ st.lastUpdated = none then (st, Except.error e)
       else (st, Except.ok st)) ∧
    (getCachedData st (Except.ok alerts) now =
       if st.alerts.length = 0 ∨ st.lastUpdated = none then
         (⟨alerts, some now, alerts.length⟩, Except.ok ⟨alerts, some now, alerts.length⟩)
       else (st, Except.ok st)) := by
  constructor
  · unfold getCachedData updateCachedData
    split <;> rfl
  · unfold getCachedData updateCachedData
    split <;> rfl

/-! ## Claim C3 — partial upstream failure -/

/-- C3 counterexample: when the MAIN source fails and the Junior Direct source
succeeds, `fetchTrafficAlerts` fails as a whole (the rejection of the main
request is rethrown), so a single-source failure does leave the refresh
failed. -/
theorem fetchTrafficAlerts_main_failure_fails :
    fetchTrafficAlerts (Except.error "main unreachable") (Except.ok [blankAlert]) =
      Except.error "main unreachable" := rfl

/-- C3 amended: the tolerated single-source failure is asymmetric. If the
Junior Direct source fails and the main source succeeds, the fetch succeeds
with the main records (deduplicated) and the refresh replaces the cache; if
the main source fails, the whole fetch fails regardless of the Junior Direct
outcome. -/
theorem fetchTrafficAlerts_amended (mainAlerts : List TrafficAlertRaw) (e : String)
    (st : CachedTrafficData) (now : Nat) (juniorResult : Except String (List TrafficAlertRaw)) :
    fetchTrafficAlerts (Except.ok mainAlerts) (Except.error e) =
      Except.ok (deduplicateAlerts mainAlerts) ∧
    (updateCachedData st (fetchTrafficAlerts (Except.ok mainAlerts) (Except.error e)) now).state =
      ⟨deduplicateAlerts mainAlerts, some now, (deduplicateAlerts mainAlerts).length⟩ ∧
    fetchTrafficAlerts (Except.error e) juniorResult = Except.error e := by
  refine ⟨?_, ?_, rfl⟩
  · simp [fetchTrafficAlerts]
  · simp [fetchTrafficAlerts, updateCachedData]

/-! ## Claim C1 — diff correctness of detectNewAlerts -/

/-- Membership characterization of `detectNewAlerts` against an arbitrary
previous index: a record is classified new iff it occurs in the fresh list,
has a line key, and that line is either unindexed or does not contain the
record's alert key. -/
theorem mem_detectNewAlerts (alerts : List TrafficAlertRaw) (idx : TopicIndex)
    (r : TrafficAlertRaw) :
    r ∈ detectNewAlerts alerts idx ↔
      r ∈ alerts ∧ ∃ line, getLineKey r = some line ∧
        (alGet idx line = none ∨
         ∃ keys, alGet idx line = some keys ∧ getAlertKey r ∉ keys) := by
  induction alerts with
  | nil => simp [detectNewAlerts]
  | cons a rest ih =>
      cases ha : getLineKey a with
      | none =>
          have hd : detectNewAlerts (a :: rest) idx = detectNewAlerts rest idx := by
            simp [detectNewAlerts, ha]
          rw [hd, ih]
          constructor
          · rintro ⟨hmem, hp⟩
            exact ⟨List.mem_cons_of_mem _ hmem, hp⟩
          · rintro ⟨hmem, hp⟩
            rcases List.mem_cons.mp hmem with hmem | hmem
            · obtain ⟨line, hline, -⟩ := hp
              rw [hmem, ha] at hline
              cases hline
            · exact ⟨hmem, hp⟩
      | some lineKey =>
          cases hg : alGet idx lineKey with
          | none =>
              have hd : detectNewAlerts (a :: rest) idx = a :: detectNewAlerts rest idx := by
                simp [detectNewAlerts, ha, hg]
              rw [hd]
              constructor
              · intro hmem
                rcases List.mem_cons.mp hmem with hmem | hmem
                · exact ⟨by simp [hmem], lineKey, by rw [hmem]; exact ha, Or.inl hg⟩
                · obtain ⟨hr, hp⟩ := ih.mp hmem
                  exact ⟨List.mem_cons_of_mem _ hr, hp⟩
              · rintro ⟨hmem, hp⟩
                rcases List.mem_cons.mp hmem with hmem | hmem
                · exact hmem ▸ List.mem_cons_self _ _
                · exact List.mem_cons_of_mem _ (ih.mpr ⟨hmem, hp⟩)
          | some keys =>
              by_cases hk : getAlertKey a ∈ keys
              · have hd : detectNewAlerts (a :: rest) idx = detectNewAlerts rest idx := by
                  simp [detectNewAlerts, ha, hg, hk]
                rw [hd, ih]
                constructor
                · rintro ⟨hmem, hp⟩
                  exact ⟨List.mem_cons_of_mem _ hmem, hp⟩
                · rintro ⟨hmem, hp⟩
                  rcases List.mem_cons.mp hmem with hmem | hmem
                  · subst hmem
                    obtain ⟨line, hline, hdis⟩ := hp
                    rw [ha] at hline
                    cases hline
                    rcases hdis with hdis | ⟨keys2, hkeys2, hnot⟩
                    · rw [hg] at hdis; cases hdis
                    · rw [hg] at hkeys2
                      cases hkeys2
                      exact absurd hk hnot
                  · exact ⟨hmem, hp⟩
              · have hd : detectNewAlerts (a :: rest) idx = a :: detectNewAlerts rest idx := by
                  simp [detectNewAlerts, ha, hg, hk]
                rw [hd]
                constructor
                · intro hmem
                  rcases List.mem_cons.mp hmem with hmem | hmem
                  · exact ⟨by simp [hmem], lineKey, by rw [hmem]; exact ha,
                      Or.inr ⟨keys, hg, hmem ▸ hk⟩⟩
                  · obtain ⟨hr, hp⟩ := ih.mp hmem
                    exact ⟨List.mem_cons_of_mem _ hr, hp⟩
                · rintro ⟨hmem, hp⟩
                  rcases List.mem_cons.mp hmem with hmem | hmem
                  · exact hmem ▸ List.mem_cons_self _ _
                  · exact List.mem_cons_of_mem _ (ih.mpr ⟨hmem, hp⟩)

/-- C1: a record is classified new (against the topic index built from the
previous snapshot) iff its topic key is present and either the topic is absent
from the previous index or its dedup key is absent from that topic's previous
key set; a record with no topic key is never classified new. Concretely, with
previous index `{A: {key(m1)}}` and new list `[m1@A, m2@A]`, exactly the `m2`
record is classified new. -/
theorem detectNewAlerts_spec :
    (∀ (prev alerts : List TrafficAlertRaw) (r : TrafficAlertRaw),
       r ∈ detectNewAlerts alerts (indexAlertsByLine prev) ↔
         r ∈ alerts ∧ ∃ line, getLineKey r = some line ∧
           (alGet (indexAlertsByLine prev) line = none ∨
            ∃ keys, alGet (indexAlertsByLine prev) line = some keys ∧
              getAlertKey r ∉ keys)) ∧
    detectNewAlerts [alertAk1, alertAk2] (indexAlertsByLine [alertAk1]) = [alertAk2] :=
  ⟨fun prev alerts r => mem_detectNewAlerts alerts (indexAlertsByLine prev) r, by decide⟩

/-! ## Claim C7 — dedup-key congruence -/

/-- C7: two records whose normalized semantic fields (`message`, `titre`,
topic key, `cause`, `type`, `mode`) agree get the same dedup key, whatever
their volatile fields (`n`, `debut`, `fin`) hold; in the embedding a record is
a function of its field values, so the key cannot depend on any field
ordering. -/
theorem getAlertKey_congr (r1 r2 : TrafficAlertRaw)
    (hm : normalizeField r1.message = normalizeField r2.message)
    (ht : normalizeField r1.titre = normalizeField r2.titre)
    (hl : getLineKey r1 = getLineKey r2)
    (hc : normalizeField r1.cause = normalizeField r2.cause)
    (hty : normalizeField r1.type = normalizeField r2.type)
    (hmo : normalizeField r1.mode = normalizeField r2.mode) :
    getAlertKey r1 = getAlertKey r2 := by
  unfold getAlertKey
  rw [hm, ht, hl, hc, hty, hmo]

/-- C7 witness: `alertSemA` and `alertSemB` agree on all six normalized
semantic fields while differing in `n`, `debut` and `fin`, and their dedup
keys coincide. -/
theorem getAlertKey_congr_witness :
    (normalizeField alertSemA.message = normalizeField alertSemB.message ∧
     normalizeField alertSemA.titre = normalizeField alertSemB.titre ∧
     getLineKey alertSemA = getLineKey alertSemB ∧
     normalizeField alertSemA.cause = normalizeField alertSemB.cause ∧
     normalizeField alertSemA.type = normalizeField alertSemB.type ∧
     normalizeField alertSemA.mode = normalizeField alertSemB.mode) ∧
    alertSemA.n ≠ alertSemB.n ∧ alertSemA.debut ≠ alertSemB.debut ∧
    alertSemA.fin ≠ alertSemB.fin ∧
    getAlertKey alertSemA = getAlertKey alertSemB :=
  ⟨⟨by decide, by decide, by decide, by decide, by decide, by decide⟩,
   by decide, by decide, by decide,
   getAlertKey_congr alertSemA alertSemB (by decide) (by decide) (by decide) (by decide)
     (by decide) (by decide)⟩

/-! ## Claim C2 — subscribe normalization and truncation -/

/-- The normalization loop never retains more than `MAX_FAVORITES` topics when
started below the cap (it breaks as soon as the cap is reached). -/
theorem normalizeLoop_length_le (v : List SubItem) (acc : List String)
    (h : acc.length < MAX_FAVORITES) : (normalizeLoop v acc).length ≤ MAX_FAVORITES := by
  induction v generalizing acc with
  | nil => exact le_of_lt h
  | cons item rest ih =>
      simp only [normalizeLoop]
      split
      · exact ih acc h
      · split
        · simp only [List.length_append, List.length_singleton]
          omega
        · refine ih _ ?_
          simp only [List.length_append, List.length_singleton]
          have := lt_of_not_le (by assumption : ¬ MAX_FAVORITES ≤ (acc ++ [normalizeItem item]).length)
          simpa using this

/-- C2 counterexample: 51 raw subscribe items of which exactly 50 normalize to
distinct topics (one item is an empty string dropped by normalization). The
input does NOT contain more than 50 distinct topics after normalization, yet
the code reports `truncated = true`, because the flag compares the RAW input
length — not the normalized count — against the cap. -/
theorem normalizeLines_truncated_counterexample :
    (normalizeLines exInput51).truncated = true ∧
    ¬ MAX_FAVORITES < (specDistinctTopics exInput51).length := by decide

/-- C2 amended: `normalizeLines` retains at most 50 topics, and the truncated
flag is true iff the full cap of 50 topics was retained AND the raw input list
held more than 50 entries (normalized or not). The concrete cases hold as
claimed: 60 distinct topics give 50 retained with `truncated = true`, and 50
distinct topics give 50 retained with `truncated = false`. -/
theorem normalizeLines_amended :
    (∀ v : List SubItem, (normalizeLines v).lines.length ≤ MAX_FAVORITES) ∧
    (∀ v : List SubItem, (normalizeLines v).truncated = true ↔
       MAX_FAVORITES ≤ (normalizeLines v).lines.length ∧ MAX_FAVORITES < v.length) ∧
    (normalizeLines exInput60).lines.length = 50 ∧
    (normalizeLines exInput60).truncated = true ∧
    (normalizeLines exInput50).lines.length = 50 ∧
    (normalizeLines exInput50).truncated = false :=
  ⟨fun v => normalizeLoop_length_le v [] (by decide),
   fun v => by simp [normalizeLines],
   by decide, by decide, by decide, by decide⟩

/-! ## Claim C9 — idempotence of deduplication -/

/-- The keys of the output of `dedupGo` are duplicate-free and disjoint from
the already-seen key set. -/
theorem dedupGo_keys (l : List TrafficAlertRaw) (seen : List String) :
    ((dedupGo seen l).map getAlertKey).Nodup ∧
      ∀ k ∈ (dedupGo seen l).map getAlertKey, k ∉ seen := by
  induction l generalizing seen with
  | nil => simp [dedupGo]
  | cons a rest ih =>
      by_cases h : getAlertKey a ∈ seen
      · simpa [dedupGo, h] using ih seen
      · have ih1 := ih (getAlertKey a :: seen)
        simp only [dedupGo, if_neg h, List.map_cons, List.nodup_cons]
        refine ⟨⟨fun hmem => ?_, ih1.1⟩, ?_⟩
        · exact (ih1.2 _ hmem) (by simp)
        · intro k hk
          rcases List.mem_cons.mp hk with hk | hk
          · simpa [hk] using h
          · intro hks
            exact (ih1.2 k hk) (by simp [hks])

/-- `dedupGo` is the identity on a list whose keys are duplicate-free and
disjoint from the seen set. -/
theorem dedupGo_eq_self (l : List TrafficAlertRaw) (seen : List String)
    (h1 : (l.map getAlertKey).Nodup) (h2 : ∀ k ∈ l.map getAlertKey, k ∉ seen) :
    dedupGo seen l = l := by
  induction l generalizing seen with
  | nil => rfl
  | cons a rest ih =>
      simp only [List.map_cons, List.nodup_cons] at h1
      have ha : getAlertKey a ∉ seen := h2 _ (by simp)
      simp only [dedupGo, if_neg ha]
      congr 1
      refine ih _ h1.2 ?_
      intro k hk hks
      rcases List.mem_cons.mp hks with hks | hks
      · exact h1.1 (hks ▸ hk)
      · exact h2 k (List.mem_cons_of_mem _ hk) hks

/-- C9: `deduplicateAlerts` is idempotent — applying it to an
already-deduplicated list returns the same list. -/
theorem deduplicateAlerts_idempotent (l : List TrafficAlertRaw) :
    deduplicateAlerts (deduplicateAlerts l) = deduplicateAlerts l := by
  unfold deduplicateAlerts
  exact dedupGo_eq_self _ [] (dedupGo_keys l []).1 (fun k _ => by simp)

/-! ## Claim C5 — subscribe replaces the previous subscription -/

/-- C5: for a connection `ws` of a consistent router state, a second subscribe
call replaces (does not merge with) the first: after subscribing to `l1` and
then to `l2`, the connection sits in a topic's bucket exactly when the topic is
in `l2` — buckets of topics only in `l1` no longer reference it. -/
theorem subscribe_replaces (st : RouterState) (h : Consistent st) (ws : Nat)
    (l1 l2 : List String) :
    ∀ line, ws ∈ bucketOf (replaceSubscriptions (replaceSubscriptions st ws l1) ws l2) line ↔
      line ∈ l2 := by
  intro line
  have h1 : Consistent (replaceSubscriptions st ws l1) := replace_consistent st ws l1 h
  rw [replace_bucket _ ws l2 h1 line]
  by_cases hl : line ∈ listDedup l2
  · simp [hl, mem_setAdd_self, (mem_listDedup l2 line).mp hl]
  · rw [if_neg hl]
    rw [mem_listDedup] at hl
    simp only [hl, iff_false]
    exact (bucketOf_nodup _ line h1.bucketsNodup).not_mem_erase

/-- C5 witness: from the empty state, subscribing connection 0 to `["A","B"]`
and then to `["C"]` leaves it indexed under `C` and under neither `A` nor `B`. -/
theorem subscribe_replaces_witness :
    0 ∈ bucketOf exRouterAC "C" ∧ 0 ∉ bucketOf exRouterAC "A" ∧
      0 ∉ bucketOf exRouterAC "B" := by
  have H := subscribe_replaces emptyRouter consistent_empty 0 ["A", "B"] ["C"]
  exact ⟨(H "C").mpr (by decide), fun hm => by simpa using (H "A").mp hm,
    fun hm => by simpa using (H "B").mp hm⟩

/-! ## Claim C10 — the two subscription maps stay mutually consistent -/

/-- Every reachable router state is fully consistent. -/
theorem reachable_consistent (st : RouterState) (h : Reachable st) : Consistent st := by
  induction h with
  | init => exact consistent_empty
  | step op hst ih =>
      cases op with
      | subscribe ws lines => exact replace_consistent _ ws lines ih
      | unsubscribe ws => exact clear_consistent _ ws ih
      | evict ws => exact clear_consistent _ ws ih

/-- C10: in every state reachable by any sequence of subscribe, unsubscribe and
heartbeat-eviction operations, a connection is in the reverse-index bucket of a
topic iff the topic is in that connection's subscription set, and every bucket
present in the reverse index is non-empty. -/
theorem router_maps_consistent (st : RouterState) (h : Reachable st) :
    (∀ ws line, ws ∈ bucketOf st line ↔ line ∈ subsOf st ws) ∧
    ∀ p ∈ st.socketsByLine, p.2 ≠ [] :=
  ⟨(reachable_consistent st h).mem_iff, (reachable_consistent st h).nonempty⟩

/-- C10 witness: at the concrete reachable state obtained by one subscribe of
connection 0 to `["A"]`, membership in the `A` bucket coincides with `A` being
in connection 0's subscription set (both hold). -/
theorem router_maps_consistent_witness :
    (0 ∈ bucketOf (applyOp emptyRouter (RouterOp.subscribe 0 ["A"])) "A" ↔
      "A" ∈ subsOf (applyOp emptyRouter (RouterOp.subscribe 0 ["A"])) 0) ∧
    0 ∈ bucketOf (applyOp emptyRouter (RouterOp.subscribe 0 ["A"])) "A" :=
  ⟨(router_maps_consistent _ (Reachable.step _ Reachable.init)).1 0 "A", by decide⟩


/-! ## Claim C8 — heartbeat eviction -/

theorem tickGo_clients (cs : List HBClient) (s : HBState) :
    (tickGo cs s).clients =
      s.clients ++ (cs.filter (fun c => c.isAlive)).map (fun c => ⟨c.id, false⟩) := by
  induction cs generalizing s with
  | nil => simp [tickGo]
  | cons c rest ih =>
      cases hca : c.isAlive
      · simp [tickGo, hca, ih, List.filter_cons]
      · simp [tickGo, hca, ih, List.filter_cons, List.append_assoc]

theorem tickGo_pinged (cs : List HBClient) (s : HBState) :
    (tickGo cs s).pinged = s.pinged ++ (cs.filter (fun c => c.isAlive)).map (fun c => c.id) := by
  induction cs generalizing s with
  | nil => simp [tickGo]
  | cons c rest ih =>
      cases hca : c.isAlive
      · simp [tickGo, hca, ih, List.filter_cons]
      · simp [tickGo, hca, ih, List.filter_cons, List.append_assoc]

theorem tickGo_terminated (cs : List HBClient) (s : HBState) :
    (tickGo cs s).terminated =
      s.terminated ++ (cs.filter (fun c => !c.isAlive)).map (fun c => c.id) := by
  induction cs generalizing s with
  | nil => simp [tickGo]
  | cons c rest ih =>
      cases hca : c.isAlive
      · simp [tickGo, hca, ih, List.filter_cons, List.append_assoc]
      · simp [tickGo, hca, ih, List.filter_cons]

theorem tickGo_router_consistent (cs : List HBClient) (s : HBState)
    (h : Consistent s.router) : Consistent (tickGo cs s).router := by
  induction cs generalizing s with
  | nil => exact h
  | cons c rest ih =>
      cases hca : c.isAlive
      · simp only [tickGo, hca]
        exact ih _ (clear_consistent _ _ h)
      · simp only [tickGo, hca]
        exact ih _ h

theorem tickGo_not_mem_mono (cs : List HBClient) (s : HBState) (w : Nat)
    (h : Consistent s.router) (hw : ∀ l, w ∉ bucketOf s.router l) :
    ∀ l, w ∉ bucketOf (tickGo cs s).router l := by
  induction cs generalizing s with
  | nil => exact hw
  | cons c rest ih =>
      cases hca : c.isAlive
      · simp only [tickGo, hca]
        refine ih _ (clear_consistent _ _ h) ?_
        intro l
        show w ∉ bucketOf (clearSubscriptions s.router c.id) l
        rw [clear_bucket _ _ h l]
        exact fun hm => hw l (List.erase_subset _ _ hm)
      · simp only [tickGo, hca]
        exact ih _ h hw

theorem tickGo_dead_cleared (cs : List HBClient) (s : HBState)
    (h : Consistent s.router) (c : HBClient) (hc : c ∈ cs) (hdead : c.isAlive = false) :
    ∀ l, c.id ∉ bucketOf (tickGo cs s).router l := by
  induction cs generalizing s with
  | nil => simp at hc
  | cons c0 rest ih =>
      rcases List.mem_cons.mp hc with rfl | hc2
      · simp only [tickGo, hdead]
        refine tickGo_not_mem_mono rest _ c.id (clear_consistent _ _ h) ?_
        intro l
        show c.id ∉ bucketOf (clearSubscriptions s.router c.id) l
        rw [clear_bucket _ _ h l]
        exact (bucketOf_nodup _ l h.bucketsNodup).not_mem_erase
      · cases hca : c0.isAlive
        · simp only [tickGo, hca]
          exact ih _ (clear_consistent _ _ h) hc2
        · simp only [tickGo, hca]
          exact ih _ h hc2

theorem heartbeatTick_clients (st : HBState) :
    (heartbeatTick st).clients =
      (st.clients.filter (fun c => c.isAlive)).map (fun c => ⟨c.id, false⟩) := by
  unfold heartbeatTick
  rw [tickGo_clients]
  rfl

theorem heartbeatTick_pinged (st : HBState) :
    (heartbeatTick st).pinged = (st.clients.filter (fun c => c.isAlive)).map (fun c => c.id) := by
  unfold heartbeatTick
  rw [tickGo_pinged]
  rfl

theorem heartbeatTick_terminated (st : HBState) :
    (heartbeatTick st).terminated =
      st.terminated ++ (st.clients.filter (fun c => !c.isAlive)).map (fun c => c.id) := by
  unfold heartbeatTick
  rw [tickGo_terminated]

theorem heartbeatTick_consistent (st : HBState) (h : Consistent st.router) :
    Consistent (heartbeatTick st).router :=
  tickGo_router_consistent st.clients _ h

theorem heartbeatTick_all_down (st : HBState) :
    ∀ c ∈ (heartbeatTick st).clients, c.isAlive = false := by
  rw [heartbeatTick_clients]
  intro c hc
  rcases List.mem_map.mp hc with ⟨c0, -, rfl⟩
  rfl

/-- C8: under the heartbeat protocol (with no pong answered between ticks), a
connection whose liveness flag is up is not closed by a tick — it stays in the
client set, marked not-yet-answered, and is sent a new probe — while after two
consecutive unanswered ticks every connection is force-closed: the client set
is empty, the connection's id is in the terminated set, and it has been removed
from every topic bucket of the subscription index. -/
theorem heartbeat_eviction (st : HBState) (h : Consistent st.router) (c : HBClient)
    (hc : c ∈ st.clients) :
    (c.isAlive = true →
       (⟨c.id, false⟩ : HBClient) ∈ (heartbeatTick st).clients ∧
       c.id ∈ (heartbeatTick st).pinged) ∧
    (heartbeatTick (heartbeatTick st)).clients = [] ∧
    c.id ∈ (heartbeatTick (heartbeatTick st)).terminated ∧
    ∀ line, c.id ∉ bucketOf (heartbeatTick (heartbeatTick st)).router line := by
  have h1 : Consistent (heartbeatTick st).router := heartbeatTick_consistent st h
  refine ⟨?_, ?_, ?_, ?_⟩
  · intro halive
    constructor
    · rw [heartbeatTick_clients]
      exact List.mem_map.mpr ⟨c, List.mem_filter.mpr ⟨hc, by simp [halive]⟩, rfl⟩
    · rw [heartbeatTick_pinged]
      exact List.mem_map.mpr ⟨c, List.mem_filter.mpr ⟨hc, by simp [halive]⟩, rfl⟩
  · rw [heartbeatTick_clients (heartbeatTick st),
        List.filter_eq_nil_iff.mpr (fun a ha => by simp [heartbeatTick_all_down st a ha])]
    rfl
  · rw [heartbeatTick_terminated (heartbeatTick st)]
    cases hca : c.isAlive
    · refine List.mem_append_left _ ?_
      rw [heartbeatTick_terminated st]
      refine List.mem_append_right _ ?_
      exact List.mem_map.mpr ⟨c, List.mem_filter.mpr ⟨hc, by simp [hca]⟩, rfl⟩
    · refine List.mem_append_right _ ?_
      refine List.mem_map.mpr ⟨⟨c.id, false⟩, List.mem_filter.mpr ⟨?_, by simp⟩, rfl⟩
      rw [heartbeatTick_clients]
      exact List.mem_map.mpr ⟨c, List.mem_filter.mpr ⟨hc, by simp [hca]⟩, rfl⟩
  · cases hca : c.isAlive
    · have hcl : ∀ l, c.id ∉ bucketOf (heartbeatTick st).router l :=
        tickGo_dead_cleared st.clients { st with clients := [], pinged := [] } h c hc hca
      exact tickGo_not_mem_mono (heartbeatTick st).clients
        { heartbeatTick st with clients := [], pinged := [] } c.id h1 hcl
    · have hmem1 : (⟨c.id, false⟩ : HBClient) ∈ (heartbeatTick st).clients := by
        rw [heartbeatTick_clients]
        exact List.mem_map.mpr ⟨c, List.mem_filter.mpr ⟨hc, by simp [hca]⟩, rfl⟩
      exact tickGo_dead_cleared (heartbeatTick st).clients
        { heartbeatTick st with clients := [], pinged := [] } h1 ⟨c.id, false⟩ hmem1 rfl

/-- C8 witness: one fully subscribed live connection answers no probe; after
one tick it is still present (flag lowered, probe sent), after two ticks it is
terminated and gone from the `A` bucket. -/
theorem heartbeat_eviction_witness :
    (⟨0, false⟩ : HBClient) ∈ (heartbeatTick exHBState).clients ∧
    0 ∈ (heartbeatTick (heartbeatTick exHBState)).terminated ∧
    0 ∉ bucketOf (heartbeatTick (heartbeatTick exHBState)).router "A" := by
  have H := heartbeat_eviction exHBState
      (replace_consistent emptyRouter 0 ["A"] consistent_empty) ⟨0, true⟩
      (by simp [exHBState])
  exact ⟨(H.1 rfl).1, H.2.2.1, H.2.2.2 "A"⟩
